import Mathlib

/-!
Shallow embedding of `src/memman/app.py`: a single-buffer memory manager
(`MemoryManager`) handing out `MemoryChunk` handles, with a free-slot list,
a free-byte counter, and a defragmentation pass.

Python values are modelled as follows:
* the backing `bytearray` `_buf` is a `List Nat` (one entry per byte);
* Python `int` is `Int`;
* a `MemoryChunk` object is identified by a creation token (`Nat`); the
  manager state keeps a table of every chunk ever created, mapping the
  token to the object's `_offset` and `_size` attributes (Python objects
  persist after `free`, so freed chunks stay in the table);
* `_allocated_chunks` is the list `live` of tokens (insertion order);
* Python exceptions are an explicit `Except` result carrying the state at
  the moment of the raise (Python mutations before a raise persist);
* Python slice reads and slice assignments (step 1) are modelled exactly,
  including index clamping and the insert/resize behaviour of
  `bytearray` slice assignment when the range is empty or shorter than
  the data.
-/

/-- Resolve a (nonnegative-or-negative) Python slice index against a list of
length `L`: negative indices count from the end, then clamp into `[0, L]`. -/
def pyIdx (L : Nat) (i : Int) : Nat :=
  if i < 0 then (L + i).toNat else min i.toNat L

/-- Python slice read `buf[i:j]` (step 1). -/
def pyGetSlice (buf : List Nat) (i j : Int) : List Nat :=
  (buf.drop (pyIdx buf.length i)).take (pyIdx buf.length j - pyIdx buf.length i)

/-- Python slice assignment `buf[i:j] = data` (step 1) on a `bytearray`:
replaces the addressed range by `data`, growing or shrinking the buffer if
the lengths differ (an empty addressed range inserts `data`). -/
def pySetSlice (buf : List Nat) (i j : Int) (data : List Nat) : List Nat :=
  buf.take (pyIdx buf.length i) ++ data ++
    buf.drop (max (pyIdx buf.length i) (pyIdx buf.length j))

/-- The possible Python exceptions raised by `app.py`, one constructor per
raise site / assert message. -/
inductive Err where
  /-- `MemoryAllocationError("Not enough free space available")` -/
  | notEnoughSpace
  /-- `assert res, "INTERNAL ERROR!"` and `assert next_offset == ... , "INTERNAL ERROR"` -/
  | internalError
  /-- `assert self.is_valid(chunk), "Unrecognized memory chunk!"` -/
  | unrecognizedChunk
  /-- `assert ... <= chunk._size, "Out of memory boundaries"` -/
  | outOfBounds
  /-- `assert start >= 0` -/
  | negStart
  /-- `RuntimeError("Data must be string or bytearray!")` -/
  | badDataType
  /-- `RuntimeError("Unknown MemoryChunk!")` (in `free`) -/
  | unknownChunk
  /-- `ValueError` from `bytearray(n)` with `n < 0` -/
  | valueError
deriving DecidableEq, Repr

/-- The state of a `MemoryManager` instance.  `table` records, for every
chunk token ever created, the chunk object's `_offset` and `_size`
attributes; `live` is `_allocated_chunks`. -/
structure MMState where
  buf : List Nat
  size : Nat
  free_bytes : Int
  table : List (Nat × Int × Int)
  live : List Nat
  free_slots : List (Int × Int)
  next_id : Nat
deriving DecidableEq, Repr

/-- `MemoryManager(size_bytes)`. -/
def mmInit (size_bytes : Nat) : MMState :=
  { buf := List.replicate size_bytes 0
    size := size_bytes
    free_bytes := size_bytes
    table := []
    live := []
    free_slots := [(0, size_bytes)]
    next_id := 0 }

/-- The `(id, _offset, _size)` record of chunk `cid` (the Python object's
attributes; defaults are never observable since every token passed to an
operation was produced by `alloc`). -/
def chunkRec (table : List (Nat × Int × Int)) (cid : Nat) : Nat × Int × Int :=
  (table.find? (fun e => e.1 == cid)).getD (cid, 0, 0)

/-- `chunk._offset`. -/
def chunkOffset (st : MMState) (cid : Nat) : Int :=
  (chunkRec st.table cid).2.1

/-- `chunk._size`. -/
def chunkSize (st : MMState) (cid : Nat) : Int :=
  (chunkRec st.table cid).2.2

/-- `chunk._offset = off` (attribute mutation, used by `_defrag`). -/
def setChunkOffset (table : List (Nat × Int × Int)) (cid : Nat) (off : Int) :
    List (Nat × Int × Int) :=
  table.map (fun e => if e.1 = cid then (e.1, off, e.2.2) else e)

/-- `MemoryManager.is_valid`: membership in `_allocated_chunks`. -/
def isValid (st : MMState) (cid : Nat) : Prop :=
  cid ∈ st.live

instance (st : MMState) (cid : Nat) : Decidable (isValid st cid) := by
  unfold isValid; infer_instance

/-- The inner loop of `MemoryManager.alloc.do_alloc`: scan `_free_slots` in
order; on the first slot with `size <= slot_size`, create the chunk, update
the slot list (pop on exact fit, shrink in place otherwise), register the
chunk, decrement `_free_bytes` and zero-fill the range.  `prev` holds the
already-scanned prefix of the slot list.  `bytearray(size)` raises
`ValueError` for negative `size`, after the bookkeeping mutations. -/
def doAllocLoop (st : MMState) (size : Int) :
    List (Int × Int) → List (Int × Int) →
    Except (Err × MMState) (Option (MMState × Nat))
  | _, [] => .ok none
  | prev, (slot_off, slot_size) :: rest =>
    if size ≤ slot_size then
      let slots' := if size = slot_size then prev ++ rest
                    else prev ++ (slot_off + size, slot_size - size) :: rest
      let st1 : MMState :=
        { st with free_slots := slots'
                  table := st.table ++ [(st.next_id, slot_off, size)]
                  live := st.live ++ [st.next_id]
                  free_bytes := st.free_bytes - size
                  next_id := st.next_id + 1 }
      if size < 0 then .error (.valueError, st1)
      else .ok (some
        ({ st1 with
            buf := pySetSlice st1.buf slot_off (slot_off + size)
                     (List.replicate size.toNat 0) },
         st.next_id))
    else doAllocLoop st size (prev ++ [(slot_off, slot_size)]) rest

/-- The loop body of `MemoryManager._defrag`: walk the offset-sorted live
chunks, copying each one's bytes down to `next_offset` (slice read, then
slice assignment, then offset update) unless it is already there. -/
def defragLoop :
    List Nat → List (Nat × Int × Int) → List (Nat × Int × Int) → Int →
    List Nat × List (Nat × Int × Int) × Int
  | buf, table, [], n => (buf, table, n)
  | buf, table, (cid, off, sz) :: rest, n =>
    if off ≠ n then
      defragLoop (pySetSlice buf n (n + sz) (pyGetSlice buf off (off + sz)))
        (setChunkOffset table cid n) rest (n + sz)
    else defragLoop buf table rest (n + sz)

/-- Stable insertion into an offset-sorted chunk list. -/
def insertChunk (x : Nat × Int × Int) :
    List (Nat × Int × Int) → List (Nat × Int × Int)
  | [] => [x]
  | y :: ys => if x.2.1 < y.2.1 then x :: y :: ys else y :: insertChunk x ys

/-- `sorted(self._allocated_chunks, key=lambda x: x._offset)` (a stable sort
by offset). -/
def sortChunks : List (Nat × Int × Int) → List (Nat × Int × Int)
  | [] => []
  | x :: xs => insertChunk x (sortChunks xs)

/-- The records of the currently live chunks, in table (creation) order. -/
def liveRecs (st : MMState) : List (Nat × Int × Int) :=
  st.table.filter (fun e => decide (e.1 ∈ st.live))

/-- `MemoryManager._defrag`: relocate all live chunks, in ascending order of
offset, to pack them from offset 0; assert that the final running offset
reconciles with `_free_bytes`; rebuild `_free_slots` as a single trailing
slot when `_free_bytes < _size`, and as the empty list otherwise. -/
def defrag (st : MMState) : Except (Err × MMState) MMState :=
  let r := defragLoop st.buf st.table (sortChunks (liveRecs st)) 0
  let st1 := { st with buf := r.1, table := r.2.1 }
  if r.2.2 = (st.size : Int) - st.free_bytes then
    .ok { st1 with
          free_slots :=
            if st.free_bytes < (st.size : Int) then
              [(r.2.2, (st.size : Int) - r.2.2)]
            else [] }
  else .error (.internalError, st1)

/-- `MemoryManager.alloc`: fast-fail when `size` exceeds `_free_bytes`;
otherwise first-fit over `_free_slots`; on failure run `_defrag` once and
retry once; `assert res, "INTERNAL ERROR!"` if that still fails. -/
def alloc (st : MMState) (size : Int) : Except (Err × MMState) (MMState × Nat) :=
  if size > st.free_bytes then .error (.notEnoughSpace, st)
  else
    match doAllocLoop st size [] st.free_slots with
    | .error e => .error e
    | .ok (some r) => .ok r
    | .ok none =>
      match defrag st with
      | .error e => .error e
      | .ok st1 =>
        match doAllocLoop st1 size [] st1.free_slots with
        | .error e => .error e
        | .ok (some r) => .ok r
        | .ok none => .error (.internalError, st1)

/-- `size = size or chunk._size`: a falsy `size` (`None`, or the int `0`)
resolves to the default `chunk._size`. -/
def resolveSize (size? : Option Int) (d : Int) : Int :=
  match size? with
  | none => d
  | some v => if v = 0 then d else v

/-- `MemoryManager.read(chunk, start, size)`: assert `start >= 0`; add the
chunk offset; resolve a falsy `size` (`None` or `0`) to `chunk._size`;
assert validity; assert `size <= chunk._size`; return the buffer slice
`buf[chunk._offset+start : chunk._offset+start+size]`.  Read never mutates
the state. -/
def mmRead (st : MMState) (cid : Nat) (start : Int) (size? : Option Int) :
    Except Err (List Nat) :=
  if ¬ start ≥ 0 then .error .negStart
  else if ¬ isValid st cid then .error .unrecognizedChunk
  else if ¬ resolveSize size? (chunkSize st cid) ≤ chunkSize st cid then
    .error .outOfBounds
  else .ok (pyGetSlice st.buf (chunkOffset st cid + start)
      (chunkOffset st cid + start + resolveSize size? (chunkSize st cid)))

/-- The `data` argument of `MemoryManager.write`: a Python `str` (modelled
by its UTF-8 encoding), a `bytes` object, a `bytearray`, or a value of any
other type. -/
inductive PyData where
  | str (utf8 : List Nat)
  | bytes (b : List Nat)
  | bytearray (b : List Nat)
  | other
deriving DecidableEq, Repr

/-- The isinstance chain of `MemoryManager.write`: `str` data is encoded
to UTF-8, `bytes` passes through, anything else (including `bytearray`) is
rejected. -/
def encodePyData : PyData → Option (List Nat)
  | .str d => some d
  | .bytes d => some d
  | _ => none

/-- `MemoryManager.write(chunk, data, start)`: assert validity; encode
`str` data to UTF-8 and let `bytes` pass, raising `RuntimeError` for
everything else (including `bytearray`, despite the annotation and the
error message); compute `end = start + len(data)`; assert `end <=
chunk._size` and `start >= 0`; then execute the slice assignment
`buffer[chunk._offset + start : end] = data` (note: the upper index is
`end`, without the chunk offset, exactly as in the source). -/
def mmWrite (st : MMState) (cid : Nat) (data : PyData) (start : Int) :
    Except (Err × MMState) MMState :=
  if ¬ isValid st cid then .error (.unrecognizedChunk, st)
  else
    match encodePyData data with
    | none => .error (.badDataType, st)
    | some d =>
      if ¬ start + (d.length : Int) ≤ chunkSize st cid then .error (.outOfBounds, st)
      else if ¬ start ≥ 0 then .error (.negStart, st)
      else .ok { st with
                 buf := pySetSlice st.buf (chunkOffset st cid + start)
                          (start + (d.length : Int)) d }

/-- `MemoryManager.free(chunk)`: raise `RuntimeError` for a chunk not in
`_allocated_chunks`; otherwise remove it from the live set, append its
range to `_free_slots` and return its size to `_free_bytes`. -/
def mmFree (st : MMState) (cid : Nat) : Except (Err × MMState) MMState :=
  if ¬ isValid st cid then .error (.unknownChunk, st)
  else .ok { st with
             live := st.live.erase cid
             free_slots := st.free_slots ++ [(chunkOffset st cid, chunkSize st cid)]
             free_bytes := st.free_bytes + chunkSize st cid }

/-- Total length of the live chunks (`Σ chunk._size`). -/
def sumSizes (l : List (Nat × Int × Int)) : Int :=
  (l.map (fun e => e.2.2)).sum

/-- Total length of the free-list entries. -/
def sumSlots (l : List (Int × Int)) : Int :=
  (l.map (fun e => e.2)).sum

/-- The structural invariants of §3 of the spec: the buffer has length
`capacity`; chunk tokens are unique; live tokens name table entries; every
live chunk's range is nonempty and lies inside the buffer; live ranges are
pairwise disjoint; and the free-byte counter equals `capacity − Σ(live
chunk sizes)`. -/
def Invariants (st : MMState) : Prop :=
  st.buf.length = st.size ∧
  (st.table.map (fun e => e.1)).Nodup ∧
  (∀ cid ∈ st.live, cid ∈ st.table.map (fun e => e.1)) ∧
  (∀ e ∈ liveRecs st, 0 ≤ e.2.1 ∧ 0 < e.2.2 ∧ e.2.1 + e.2.2 ≤ (st.size : Int)) ∧
  (liveRecs st).Pairwise
    (fun a b => a.2.1 + a.2.2 ≤ b.2.1 ∨ b.2.1 + b.2.2 ≤ a.2.1) ∧
  st.free_bytes = (st.size : Int) - sumSizes (liveRecs st)

instance (st : MMState) : Decidable (Invariants st) := by
  unfold Invariants; infer_instance

/-! ### Slice toolkit: in-bounds characterisations of the Python slices -/

/-- The in-bounds byte segment `[o, o + s)` of a buffer, in `Nat` indices. -/
def seg (buf : List Nat) (o s : Nat) : List Nat :=
  (buf.drop o).take s

theorem pyIdx_of_nonneg_le {L : Nat} {i : Int} (h0 : 0 ≤ i) (hL : i ≤ (L : Int)) :
    pyIdx L i = i.toNat := by
  unfold pyIdx
  rw [if_neg (by omega)]
  omega

theorem pyGetSlice_eq_seg {buf : List Nat} {o s : Int} (h0 : 0 ≤ o) (hs : 0 ≤ s)
    (hL : o + s ≤ (buf.length : Int)) :
    pyGetSlice buf o (o + s) = seg buf o.toNat s.toNat := by
  unfold pyGetSlice seg
  rw [pyIdx_of_nonneg_le h0 (by omega), pyIdx_of_nonneg_le (by omega) hL]
  congr 1
  omega

theorem seg_length {buf : List Nat} {o s : Nat} (h : o + s ≤ buf.length) :
    (seg buf o s).length = s := by
  unfold seg
  rw [List.length_take, List.length_drop]
  omega

theorem getElem?_seg (buf : List Nat) (o s m : Nat) :
    (seg buf o s)[m]? = if m < s then buf[o + m]? else none := by
  unfold seg
  rw [List.getElem?_take]
  by_cases h : m < s
  · rw [if_pos h, if_pos h, List.getElem?_drop]
  · rw [if_neg h, if_neg h]

theorem seg_eq_of_agree {buf1 buf2 : List Nat} {o s : Nat}
    (h : ∀ k, o ≤ k → k < o + s → buf1[k]? = buf2[k]?) :
    seg buf1 o s = seg buf2 o s := by
  apply List.ext_getElem?
  intro m
  rw [getElem?_seg, getElem?_seg]
  by_cases hm : m < s
  · rw [if_pos hm, if_pos hm]
    exact h (o + m) (by omega) (by omega)
  · rw [if_neg hm, if_neg hm]

theorem pySetSlice_inbounds {buf data : List Nat} {a n : Int} (h0 : 0 ≤ a)
    (hn : 0 ≤ n) (hL : a + n ≤ (buf.length : Int)) (hd : (data.length : Int) = n) :
    pySetSlice buf a (a + n) data =
      buf.take a.toNat ++ data ++ buf.drop (a.toNat + n.toNat) := by
  unfold pySetSlice
  rw [pyIdx_of_nonneg_le h0 (by omega), pyIdx_of_nonneg_le (by omega) hL]
  have hmax : max a.toNat (a + n).toNat = a.toNat + n.toNat := by omega
  rw [hmax]

theorem length_replace {buf data : List Nat} {a n : Nat} (ha : a + n ≤ buf.length)
    (hd : data.length = n) :
    (buf.take a ++ data ++ buf.drop (a + n)).length = buf.length := by
  simp only [List.length_append, List.length_take, List.length_drop]
  omega

theorem getElem?_replace {buf data : List Nat} {a n : Nat} (ha : a + n ≤ buf.length)
    (hd : data.length = n) (k : Nat) :
    (buf.take a ++ data ++ buf.drop (a + n))[k]? =
      if k < a then buf[k]? else if k < a + n then data[k - a]? else buf[k]? := by
  have hTa : (buf.take a).length = a := by
    rw [List.length_take]; omega
  rw [List.append_assoc, List.getElem?_append, hTa]
  by_cases h1 : k < a
  · rw [if_pos h1, if_pos h1, List.getElem?_take, if_pos h1]
  · rw [if_neg h1, if_neg h1, List.getElem?_append, hd]
    by_cases h2 : k < a + n
    · rw [if_pos (by omega), if_pos h2]
    · rw [if_neg (by omega), if_neg h2, List.getElem?_drop]
      congr 1
      omega

theorem seg_middle (A data B : List Nat) :
    seg (A ++ data ++ B) A.length data.length = data := by
  unfold seg
  rw [List.append_assoc, List.drop_left, List.take_left]

theorem seg_replace_middle {buf data : List Nat} {a n : Nat} (ha : a + n ≤ buf.length)
    (hd : data.length = n) :
    seg (buf.take a ++ data ++ buf.drop (a + n)) a n = data := by
  have hTa : (buf.take a).length = a := by
    rw [List.length_take]; omega
  calc seg (buf.take a ++ data ++ buf.drop (a + n)) a n
      = seg (buf.take a ++ data ++ buf.drop (a + n)) (buf.take a).length data.length := by
        rw [hTa, hd]
    _ = data := seg_middle _ _ _

/-! ### Closed evaluations: code bugs and counterexamples -/

/-- Claim C1 (code bug): a successful `write` does not copy `data` into
`[offset+start, offset+start+len(data))` leaving the rest unchanged.  On a
capacity-4 manager with two size-2 chunks, writing the single byte `7` at
start 0 of the second chunk (offset 2) executes `buf[2:1] = data`, which
*inserts* the byte, producing a 5-byte buffer `[0,0,7,0,0]` instead of
`[0,0,7,0]`: the byte at index 3 has been shifted to index 4. -/
theorem write_misplaced_slice_bug :
    ((alloc (mmInit 4) 2).bind fun p => (alloc p.1 2).bind fun q =>
      (mmWrite q.1 q.2 (.bytes [7]) 0).map fun st => st.buf)
    = .ok [0, 0, 7, 0, 0] := rfl

/-- Claim C2 (code bug): the buffer's length does not stay equal to the
capacity.  After the same successful `write` as in the C1 evaluation, the
buffer has 5 bytes while the capacity `_size` is 4 (the upper slice index
of the write misses `chunk._offset`, so the assignment inserts instead of
replacing). -/
theorem buffer_length_grows_bug :
    ((alloc (mmInit 4) 2).bind fun p => (alloc p.1 2).bind fun q =>
      (mmWrite q.1 q.2 (.bytes [7]) 0).map fun st => (st.buf.length, st.size))
    = .ok (5, 4) := rfl

/-- Claim C4 (code bug): `read` does not fail with `OutOfBounds` when
`start + length > chunk.size`; it only checks `length <= chunk.size`.  With
chunk `a` of size 2 at offset 0 and chunk `b` of size 2 at offset 2 holding
bytes `[5,6]`, `read(a, 1, 2)` has `start + length = 3 > 2` yet succeeds,
returning `[0, 5]` — the second byte belongs to chunk `b`, outside `a`'s
own range. -/
theorem read_overrun_accepted_bug :
    ((alloc (mmInit 4) 2).bind fun p => (alloc p.1 2).bind fun q =>
      (mmWrite q.1 q.2 (.bytes [5, 6]) 0).map fun st3 =>
        (mmRead st3 p.2 1 (some 2), chunkSize st3 p.2))
    = .ok (.ok [0, 5], 2) := rfl

/-- Claim C6 (code bug): `write` does not accept every raw byte sequence:
a `bytearray` argument (the very type named in the signature and in the
error message) is rejected with `RuntimeError("Data must be string or
bytearray!")`, because the type test checks `isinstance(data, bytes)` and
`bytearray` is not a subtype of `bytes`; a `bytes` argument is accepted. -/
theorem write_bytearray_rejected_bug :
    ((alloc (mmInit 2) 1).map fun p =>
      ((mmWrite p.1 p.2 (.bytearray [65]) 0).mapError fun e => e.1,
       (mmWrite p.1 p.2 (.bytes [65]) 0).isOk))
    = .ok (.error .badDataType, true) := rfl

/-- Claim C9 (code bug): the free-byte counter does not always agree with
the free-list total.  Capacity 10, `alloc(5)` twice, `free` both, then
`alloc(10)`: the first-fit scan fails on the fragmented list
`[(0,5),(5,5)]`, `_defrag` runs with no live chunks and rebuilds the
free-list under the condition `free_bytes < size` (10 < 10 is false), so
the free-list becomes empty while `_free_bytes` is 10; the retry then
fails and the `assert res, "INTERNAL ERROR!"` fires on a legitimate
sequence. -/
theorem defrag_free_list_lost_bug :
    (((alloc (mmInit 10) 5).bind fun p => (alloc p.1 5).bind fun q =>
        (mmFree q.1 p.2).bind fun s3 => (mmFree s3 q.2).bind fun s4 =>
          alloc s4 10).mapError fun e =>
            (e.1, e.2.free_bytes, sumSlots e.2.free_slots, e.2.live))
    = .error (.internalError, 10, 0, []) := rfl

/-- Claim C5 counterexample: `alloc(0)` does not fail with
`InvalidArgument`; on a fresh capacity-1 manager it succeeds and returns a
zero-size chunk (token 0), leaving the free-byte counter at 1. -/
theorem alloc_zero_returns_chunk_cex :
    alloc (mmInit 1) 0
    = .ok ({ buf := [0], size := 1, free_bytes := 1, table := [(0, 0, 0)],
             live := [0], free_slots := [(0, 1)], next_id := 1 }, 0) := rfl

/-- Claim C3 counterexample: the write/read round-trip fails for the empty
byte sequence.  On a size-1 chunk, `write(c, b"", 0)` succeeds, but
`read(c, 0, 0)` resolves the length 0 to `chunk._size` (Python `size or
chunk._size` treats 0 as falsy) and returns the 1-byte list `[0]`, not the
empty list. -/
theorem roundtrip_empty_data_cex :
    (((alloc (mmInit 1) 1).bind fun p =>
        (mmWrite p.1 p.2 (.bytes []) 0).map fun st2 => mmRead st2 p.2 0 (some 0))
      = .ok (.ok [0])) ∧ ([0] : List Nat) ≠ ([] : List Nat) :=
  ⟨rfl, by decide⟩

/-- Claim C10 counterexample: `read(c, start, 0)` does not always return
`c.size` bytes.  On a capacity-3 manager with one size-3 chunk,
`read(c, 1, 0)` resolves the length to 3 but the slice `buf[1:4]` clamps
at the buffer's end and returns only the 2 bytes `[0,0]`. -/
theorem read_len_zero_truncated_cex :
    (((alloc (mmInit 3) 3).map fun p =>
        (mmRead p.1 p.2 1 (some 0), chunkSize p.1 p.2))
      = .ok (.ok [0, 0], 3)) ∧ ([0, 0] : List Nat).length ≠ 3 :=
  ⟨rfl, by decide⟩

/-! ### Lookup-table lemmas -/

theorem chunkRec_append_fresh {t : List (Nat × Int × Int)} {x : Nat}
    (hid : ∀ e ∈ t, e.1 ≠ x) {r : Nat × Int × Int} (hr : r.1 = x) :
    chunkRec (t ++ [r]) x = r := by
  induction t with
  | nil =>
    show (List.find? (fun e => e.1 == x) ([] ++ [r])).getD (x, 0, 0) = r
    simp [List.find?, hr]
  | cons a t ih =>
    have ha : ¬ ((fun e => e.1 == x) a = true) := by
      simp only [beq_iff_eq]
      exact hid a (List.mem_cons_self a t)
    show (List.find? (fun e => e.1 == x) ((a :: t) ++ [r])).getD (x, 0, 0) = r
    rw [List.cons_append,
      List.find?_cons_of_neg (p := fun (e : Nat × Int × Int) => e.1 == x) _ ha]
    exact ih fun e he => hid e (List.mem_cons_of_mem a he)

/-! ### Slice behaviour of the buggy write followed by a read -/

theorem pyGetSlice_pySetSlice_front {buf data : List Nat} {o j : Int}
    (ho : 0 ≤ o) (hoL : o ≤ (buf.length : Int)) :
    pyGetSlice (pySetSlice buf o j data) o (o + (data.length : Int)) = data := by
  have ha : pyIdx buf.length o = o.toNat := pyIdx_of_nonneg_le ho hoL
  have hT : (buf.take (pyIdx buf.length o)).length = o.toNat := by
    rw [ha, List.length_take]
    omega
  unfold pySetSlice pyGetSlice
  rw [List.length_append, List.length_append, hT]
  have h1 : pyIdx ((o.toNat + data.length) +
      (buf.drop (max (pyIdx buf.length o) (pyIdx buf.length j))).length) o
      = o.toNat := pyIdx_of_nonneg_le ho (by omega)
  have h2 : pyIdx ((o.toNat + data.length) +
      (buf.drop (max (pyIdx buf.length o) (pyIdx buf.length j))).length)
      (o + (data.length : Int)) = o.toNat + data.length := by
    rw [pyIdx_of_nonneg_le (by omega) (by push_cast; omega)]
    omega
  rw [h1, h2]
  have h3 : o.toNat + data.length - o.toNat = data.length := by omega
  rw [h3, List.append_assoc, ← hT, List.drop_left, List.take_left]

theorem resolveSize_ne_zero {v d : Int} (h : v ≠ 0) : resolveSize (some v) d = v := by
  show (if v = 0 then d else v) = v
  rw [if_neg h]

/-! ### Claims C10, C5, C3: amended statements -/

/-- Claim C10 (amended): an explicit length of 0 in `read` is treated as
unspecified — it resolves to `chunk._size`, so `read(c, start, 0)` behaves
exactly like `read(c, start)` with the length omitted, and returns the
(clamping) buffer slice `buf[offset+start : offset+start+size]`. -/
theorem read_len_zero_resolves (st : MMState) (cid : Nat) (start : Int)
    (hlive : cid ∈ st.live) (hstart : 0 ≤ start) :
    mmRead st cid start (some 0) = mmRead st cid start none ∧
    mmRead st cid start (some 0) =
      .ok (pyGetSlice st.buf (chunkOffset st cid + start)
        (chunkOffset st cid + start + chunkSize st cid)) := by
  have h1 : ¬ ¬ start ≥ 0 := by omega
  have h2 : ¬ ¬ isValid st cid := not_not_intro hlive
  have hr : resolveSize (some 0) (chunkSize st cid) = chunkSize st cid := rfl
  have h3 : ¬ ¬ resolveSize (some 0) (chunkSize st cid) ≤ chunkSize st cid := by
    rw [hr]
    exact not_not_intro le_rfl
  refine ⟨rfl, ?_⟩
  unfold mmRead
  rw [if_neg h1, if_neg h2, if_neg h3, hr]

/-- Claim C10 witness: a concrete live chunk `(offset 0, size 1)` on a
2-byte buffer, read at `start = 0` with an explicit length 0. -/
theorem read_len_zero_resolves_witness :
    0 ∈ (MMState.mk [0, 0] 2 1 [(0, 0, 1)] [0] [(1, 1)] 1).live ∧
    (0 : Int) ≤ 0 ∧
    (mmRead (MMState.mk [0, 0] 2 1 [(0, 0, 1)] [0] [(1, 1)] 1) 0 0 (some 0) =
        mmRead (MMState.mk [0, 0] 2 1 [(0, 0, 1)] [0] [(1, 1)] 1) 0 0 none ∧
      mmRead (MMState.mk [0, 0] 2 1 [(0, 0, 1)] [0] [(1, 1)] 1) 0 0 (some 0) =
        .ok (pyGetSlice (MMState.mk [0, 0] 2 1 [(0, 0, 1)] [0] [(1, 1)] 1).buf
          (chunkOffset (MMState.mk [0, 0] 2 1 [(0, 0, 1)] [0] [(1, 1)] 1) 0 + 0)
          (chunkOffset (MMState.mk [0, 0] 2 1 [(0, 0, 1)] [0] [(1, 1)] 1) 0 + 0 +
            chunkSize (MMState.mk [0, 0] 2 1 [(0, 0, 1)] [0] [(1, 1)] 1) 0))) :=
  ⟨by decide, by decide,
    read_len_zero_resolves (MMState.mk [0, 0] 2 1 [(0, 0, 1)] [0] [(1, 1)] 1) 0 0
      (by decide) (by decide)⟩

theorem pySetSlice_nil_len_zero (buf : List Nat) (o : Int) :
    pySetSlice buf o (o + 0) [] = buf := by
  unfold pySetSlice
  rw [Int.add_zero, max_self, List.append_nil, List.take_append_drop]

/-- Claim C5 (amended): `alloc` performs no non-positive-size check.  For
`size = 0` it does not fail: whenever the free-byte counter is nonnegative
and the first free-list entry has nonnegative length `l`, `alloc(0)`
succeeds via that entry and returns a fresh zero-size chunk at its offset,
leaving the buffer and the free-byte counter unchanged (the entry is
popped when `l = 0`, and kept as is otherwise). -/
theorem alloc_zero_no_reject (st : MMState) (o l : Int) (rest : List (Int × Int))
    (hslots : st.free_slots = (o, l) :: rest)
    (hl : 0 ≤ l) (hf : 0 ≤ st.free_bytes)
    (hid : ∀ e ∈ st.table, e.1 ≠ st.next_id) :
    ∃ st', alloc st 0 = .ok (st', st.next_id) ∧
      st'.buf = st.buf ∧
      st'.free_bytes = st.free_bytes ∧
      chunkOffset st' st.next_id = o ∧
      chunkSize st' st.next_id = 0 ∧
      st'.live = st.live ++ [st.next_id] ∧
      st'.free_slots = (if l = 0 then rest else st.free_slots) := by
  refine ⟨{ st with
      buf := pySetSlice st.buf o (o + 0) (List.replicate (0 : Int).toNat 0)
      free_slots := if (0 : Int) = l then [] ++ rest
                    else [] ++ (o + 0, l - 0) :: rest
      table := st.table ++ [(st.next_id, o, 0)]
      live := st.live ++ [st.next_id]
      free_bytes := st.free_bytes - 0
      next_id := st.next_id + 1 }, ?g1, ?g2, ?g3, ?g4, ?g5, ?g6, ?g7⟩
  case g1 =>
    unfold alloc
    rw [if_neg (show ¬ (0 : Int) > st.free_bytes by omega), hslots]
    simp only [doAllocLoop]
    rw [if_pos hl, if_neg (show ¬ (0 : Int) < 0 by omega)]
  case g2 => exact pySetSlice_nil_len_zero st.buf o
  case g3 => exact Int.sub_zero st.free_bytes
  case g4 =>
    show (chunkRec (st.table ++ [(st.next_id, o, 0)]) st.next_id).2.1 = o
    rw [chunkRec_append_fresh hid rfl]
  case g5 =>
    show (chunkRec (st.table ++ [(st.next_id, o, 0)]) st.next_id).2.2 = 0
    rw [chunkRec_append_fresh hid rfl]
  case g6 => rfl
  case g7 =>
    show (if (0 : Int) = l then [] ++ rest else [] ++ (o + 0, l - 0) :: rest)
      = (if l = 0 then rest else st.free_slots)
    rcases eq_or_ne l 0 with h | h
    · rw [if_pos h.symm, if_pos h, List.nil_append]
    · rw [if_neg (fun hc => h hc.symm), if_neg h, List.nil_append, hslots,
        Int.add_zero, Int.sub_zero]

/-- Claim C5 witness: `alloc(0)` on a fresh capacity-1 manager. -/
theorem alloc_zero_no_reject_witness :
    (mmInit 1).free_slots = ((0 : Int), (1 : Int)) :: [] ∧
    (0 : Int) ≤ 1 ∧
    (∃ st', alloc (mmInit 1) 0 = .ok (st', (mmInit 1).next_id) ∧
      st'.buf = (mmInit 1).buf ∧
      st'.free_bytes = (mmInit 1).free_bytes ∧
      chunkOffset st' (mmInit 1).next_id = 0 ∧
      chunkSize st' (mmInit 1).next_id = 0 ∧
      st'.live = (mmInit 1).live ++ [(mmInit 1).next_id] ∧
      st'.free_slots = (if (1 : Int) = 0 then [] else (mmInit 1).free_slots)) :=
  ⟨by decide, by decide,
    alloc_zero_no_reject (mmInit 1) 0 1 [] (by decide) (by decide) (by decide)
      (by decide)⟩

/-- Claim C3 (amended): the write/read round-trip holds for every NONEMPTY
byte sequence: for a live chunk `c` with a nonnegative in-buffer offset and
`len(data) ≤ c.size`, `write(c, data, 0)` succeeds and a subsequent
`read(c, 0, len(data))` returns exactly `data` (the empty sequence is
excluded because `read` resolves an explicit length 0 to `c.size`). -/
theorem write_read_roundtrip (st : MMState) (cid : Nat) (data : List Nat)
    (hlive : cid ∈ st.live)
    (hlen : (data.length : Int) ≤ chunkSize st cid)
    (hne : data ≠ [])
    (hoff : 0 ≤ chunkOffset st cid)
    (hoffL : chunkOffset st cid ≤ (st.buf.length : Int)) :
    ∃ st', mmWrite st cid (.bytes data) 0 = .ok st' ∧
      mmRead st' cid 0 (some (data.length : Int)) = .ok data := by
  have h2 : ¬ ¬ isValid st cid := not_not_intro hlive
  have hdz : (data.length : Int) ≠ 0 := by
    have : data.length ≠ 0 := fun h => hne (List.length_eq_zero.mp h)
    omega
  refine ⟨{ st with
      buf := pySetSlice st.buf (chunkOffset st cid + 0)
               (0 + (data.length : Int)) data }, ?w, ?r⟩
  case w =>
    unfold mmWrite
    rw [if_neg h2]
    simp only [encodePyData]
    rw [if_neg (not_not_intro (show (0 : Int) + (data.length : Int) ≤
          chunkSize st cid by omega)),
      if_neg (not_not_intro (show (0 : Int) ≥ 0 by omega))]
  case r =>
    have h2' : ¬ ¬ isValid { st with
        buf := pySetSlice st.buf (chunkOffset st cid + 0)
                 (0 + (data.length : Int)) data } cid := h2
    have hsz : chunkSize { st with
        buf := pySetSlice st.buf (chunkOffset st cid + 0)
                 (0 + (data.length : Int)) data } cid = chunkSize st cid := rfl
    unfold mmRead
    rw [if_neg (not_not_intro (show (0 : Int) ≥ 0 by omega)), if_neg h2', hsz,
      resolveSize_ne_zero hdz, if_neg (not_not_intro hlen)]
    show Except.ok (pyGetSlice
        (pySetSlice st.buf (chunkOffset st cid + 0) (0 + (data.length : Int)) data)
        (chunkOffset st cid + 0) (chunkOffset st cid + 0 + (data.length : Int)))
      = Except.ok data
    exact congrArg Except.ok
      (pyGetSlice_pySetSlice_front (by omega) (by omega))

/-- Claim C3 witness: a live size-2 chunk at offset 0 on a 2-byte buffer
holding stale bytes, written with the single byte 1. -/
theorem write_read_roundtrip_witness :
    0 ∈ (MMState.mk [9, 9] 2 0 [(0, 0, 2)] [0] [] 1).live ∧
    (([1] : List Nat).length : Int) ≤ chunkSize (MMState.mk [9, 9] 2 0 [(0, 0, 2)] [0] [] 1) 0 ∧
    (∃ st', mmWrite (MMState.mk [9, 9] 2 0 [(0, 0, 2)] [0] [] 1) 0 (.bytes [1]) 0 = .ok st' ∧
      mmRead st' 0 0 (some (([1] : List Nat).length : Int)) = .ok [1]) :=
  ⟨by decide, by decide,
    write_read_roundtrip (MMState.mk [9, 9] 2 0 [(0, 0, 2)] [0] [] 1) 0 [1]
      (by decide) (by decide) (by decide) (by decide) (by decide)⟩

/-! ### Claim C8: first-fit allocation -/

theorem doAllocLoop_skip (st : MMState) (size : Int)
    (prev A rest : List (Int × Int)) (hA : ∀ e ∈ A, e.2 < size) :
    doAllocLoop st size prev (A ++ rest) = doAllocLoop st size (prev ++ A) rest := by
  induction A generalizing prev with
  | nil => rw [List.nil_append, List.append_nil]
  | cons a A ih =>
    obtain ⟨a1, a2⟩ := a
    have hfit : ¬ size ≤ a2 := by
      have := hA (a1, a2) (List.mem_cons_self _ _)
      omega
    rw [List.cons_append]
    show doAllocLoop st size prev ((a1, a2) :: (A ++ rest)) = _
    simp only [doAllocLoop]
    rw [if_neg hfit,
      ih (prev ++ [(a1, a2)]) (fun e he => hA e (List.mem_cons_of_mem _ he)),
      List.append_assoc]
    rfl

/-- Claim C8: for a valid request (`0 < size ≤ free_bytes`) with some
fitting free-list entry, `alloc` selects the FIRST entry (list order) whose
length is at least `size`, pops it on an exact fit and otherwise shrinks it
in place (offset advanced by `size`, length reduced by `size`, remainder at
the same position), returns a fresh chunk at the entry's original offset
whose `size` bytes read back as zeros, and decrements the free-byte counter
by `size`. -/
theorem alloc_first_fit (st : MMState) (size : Int) (A B : List (Int × Int))
    (o l : Int)
    (hslots : st.free_slots = A ++ (o, l) :: B)
    (hA : ∀ e ∈ A, e.2 < size)
    (hfit : size ≤ l)
    (hpos : 0 < size)
    (hfree : size ≤ st.free_bytes)
    (ho : 0 ≤ o) (hol : o + size ≤ (st.buf.length : Int))
    (hid : ∀ e ∈ st.table, e.1 ≠ st.next_id) :
    ∃ st', alloc st size = .ok (st', st.next_id) ∧
      st'.free_slots = (if size = l then A ++ B
                        else A ++ (o + size, l - size) :: B) ∧
      st'.free_bytes = st.free_bytes - size ∧
      st'.live = st.live ++ [st.next_id] ∧
      chunkOffset st' st.next_id = o ∧
      chunkSize st' st.next_id = size ∧
      mmRead st' st.next_id 0 (some size) = .ok (List.replicate size.toNat 0) := by
  refine ⟨{ st with
      buf := pySetSlice st.buf o (o + size) (List.replicate size.toNat 0)
      free_slots := if size = l then A ++ B else A ++ (o + size, l - size) :: B
      table := st.table ++ [(st.next_id, o, size)]
      live := st.live ++ [st.next_id]
      free_bytes := st.free_bytes - size
      next_id := st.next_id + 1 }, ?g1, rfl, rfl, rfl, ?g4, ?g5, ?g6⟩
  case g1 =>
    unfold alloc
    rw [if_neg (show ¬ size > st.free_bytes by omega), hslots,
      doAllocLoop_skip st size [] A ((o, l) :: B) hA, List.nil_append]
    simp only [doAllocLoop]
    rw [if_pos hfit, if_neg (show ¬ size < 0 by omega)]
  case g4 =>
    show (chunkRec (st.table ++ [(st.next_id, o, size)]) st.next_id).2.1 = o
    rw [chunkRec_append_fresh hid rfl]
  case g5 =>
    show (chunkRec (st.table ++ [(st.next_id, o, size)]) st.next_id).2.2 = size
    rw [chunkRec_append_fresh hid rfl]
  case g6 =>
    have h2' : ¬ ¬ isValid { st with
        buf := pySetSlice st.buf o (o + size) (List.replicate size.toNat 0)
        free_slots := if size = l then A ++ B else A ++ (o + size, l - size) :: B
        table := st.table ++ [(st.next_id, o, size)]
        live := st.live ++ [st.next_id]
        free_bytes := st.free_bytes - size
        next_id := st.next_id + 1 } st.next_id :=
      not_not_intro (List.mem_append_right _ (List.mem_singleton.mpr rfl))
    have hszW : chunkSize { st with
        buf := pySetSlice st.buf o (o + size) (List.replicate size.toNat 0)
        free_slots := if size = l then A ++ B else A ++ (o + size, l - size) :: B
        table := st.table ++ [(st.next_id, o, size)]
        live := st.live ++ [st.next_id]
        free_bytes := st.free_bytes - size
        next_id := st.next_id + 1 } st.next_id = size := by
      show (chunkRec (st.table ++ [(st.next_id, o, size)]) st.next_id).2.2 = size
      rw [chunkRec_append_fresh hid rfl]
    have hoffW : chunkOffset { st with
        buf := pySetSlice st.buf o (o + size) (List.replicate size.toNat 0)
        free_slots := if size = l then A ++ B else A ++ (o + size, l - size) :: B
        table := st.table ++ [(st.next_id, o, size)]
        live := st.live ++ [st.next_id]
        free_bytes := st.free_bytes - size
        next_id := st.next_id + 1 } st.next_id = o := by
      show (chunkRec (st.table ++ [(st.next_id, o, size)]) st.next_id).2.1 = o
      rw [chunkRec_append_fresh hid rfl]
    have hrep : (List.replicate size.toNat 0).length = size.toNat :=
      List.length_replicate _ _
    unfold mmRead
    rw [if_neg (not_not_intro (show (0 : Int) ≥ 0 by omega)), if_neg h2',
      resolveSize_ne_zero (show size ≠ 0 by omega), hszW,
      if_neg (not_not_intro le_rfl), hoffW]
    show Except.ok (pyGetSlice
        (pySetSlice st.buf o (o + size) (List.replicate size.toNat 0))
        (o + 0) (o + 0 + size))
      = Except.ok (List.replicate size.toNat 0)
    rw [Int.add_zero,
      pySetSlice_inbounds ho (by omega) hol (by rw [hrep]; omega)]
    have hLnew : (st.buf.take o.toNat ++ List.replicate size.toNat 0 ++
        st.buf.drop (o.toNat + size.toNat)).length = st.buf.length :=
      length_replace (by omega) hrep
    rw [pyGetSlice_eq_seg ho (by omega) (by rw [hLnew]; omega)]
    exact congrArg Except.ok (seg_replace_middle (by omega) hrep)

/-- Claim C8 witness: `alloc(2)` on a fresh capacity-3 manager, whose
free-list is the single entry `(0, 3)`. -/
theorem alloc_first_fit_witness :
    (mmInit 3).free_slots = [] ++ ((0 : Int), (3 : Int)) :: [] ∧
    (0 : Int) < 2 ∧ (2 : Int) ≤ (mmInit 3).free_bytes ∧
    (∃ st', alloc (mmInit 3) 2 = .ok (st', (mmInit 3).next_id) ∧
      st'.free_slots = (if (2 : Int) = 3 then [] ++ []
                        else [] ++ ((0 : Int) + 2, (3 : Int) - 2) :: []) ∧
      st'.free_bytes = (mmInit 3).free_bytes - 2 ∧
      st'.live = (mmInit 3).live ++ [(mmInit 3).next_id] ∧
      chunkOffset st' (mmInit 3).next_id = 0 ∧
      chunkSize st' (mmInit 3).next_id = 2 ∧
      mmRead st' (mmInit 3).next_id 0 (some 2) =
        .ok (List.replicate (2 : Int).toNat 0)) :=
  ⟨by decide, by decide, by decide,
    alloc_first_fit (mmInit 3) 2 [] [] 0 3 (by decide) (by decide) (by decide)
      (by decide) (by decide) (by decide) (by decide) (by decide)⟩

/-! ### Claim C7: sorting and table-update lemmas -/

theorem insertChunk_perm (x : Nat × Int × Int) (l : List (Nat × Int × Int)) :
    (insertChunk x l).Perm (x :: l) := by
  induction l with
  | nil => exact List.Perm.refl _
  | cons y ys ih =>
    show (if x.2.1 < y.2.1 then x :: y :: ys else y :: insertChunk x ys).Perm _
    by_cases h : x.2.1 < y.2.1
    · rw [if_pos h]
    · rw [if_neg h]
      exact (ih.cons y).trans (List.Perm.swap x y ys)

theorem sortChunks_perm (l : List (Nat × Int × Int)) : (sortChunks l).Perm l := by
  induction l with
  | nil => exact List.Perm.refl _
  | cons x xs ih => exact (insertChunk_perm x (sortChunks xs)).trans (ih.cons x)

theorem mem_insertChunk {a x : Nat × Int × Int} {l : List (Nat × Int × Int)} :
    a ∈ insertChunk x l ↔ a = x ∨ a ∈ l := by
  rw [(insertChunk_perm x l).mem_iff, List.mem_cons]

theorem insertChunk_pairwise {x : Nat × Int × Int} {l : List (Nat × Int × Int)}
    (h : l.Pairwise (fun a b => a.2.1 ≤ b.2.1)) :
    (insertChunk x l).Pairwise (fun a b => a.2.1 ≤ b.2.1) := by
  induction l with
  | nil => exact List.pairwise_singleton _ _
  | cons y ys ih =>
    rw [List.pairwise_cons] at h
    obtain ⟨hy, hys⟩ := h
    show (if x.2.1 < y.2.1 then x :: y :: ys else y :: insertChunk x ys).Pairwise _
    by_cases hc : x.2.1 < y.2.1
    · rw [if_pos hc]
      refine List.Pairwise.cons ?_ (List.Pairwise.cons hy hys)
      intro b hb
      rcases List.mem_cons.mp hb with rfl | hb
      · omega
      · have := hy b hb
        omega
    · rw [if_neg hc]
      refine List.Pairwise.cons ?_ (ih hys)
      intro b hb
      rcases mem_insertChunk.mp hb with rfl | hb
      · omega
      · exact hy b hb

theorem sortChunks_sorted (l : List (Nat × Int × Int)) :
    (sortChunks l).Pairwise (fun a b => a.2.1 ≤ b.2.1) := by
  induction l with
  | nil => exact List.Pairwise.nil
  | cons x xs ih => exact insertChunk_pairwise ih

theorem find?_setChunkOffset (t : List (Nat × Int × Int)) (c : Nat) (o : Int)
    (x : Nat) :
    List.find? (fun e => e.1 == x) (setChunkOffset t c o) =
      (List.find? (fun e => e.1 == x) t).map
        (fun e => if e.1 = c then (e.1, o, e.2.2) else e) := by
  unfold setChunkOffset
  have hp : ((fun (e : Nat × Int × Int) => e.1 == x) ∘
      fun (e : Nat × Int × Int) => if e.1 = c then (e.1, o, e.2.2) else e) =
      (fun (e : Nat × Int × Int) => e.1 == x) := by
    funext e
    by_cases h : e.1 = c
    · simp [Function.comp, h]
    · simp [Function.comp, h]
  rw [List.find?_map, hp]

theorem chunkRec_setChunkOffset_ne {t : List (Nat × Int × Int)} {c x : Nat}
    {o : Int} (h : x ≠ c) :
    chunkRec (setChunkOffset t c o) x = chunkRec t x := by
  unfold chunkRec
  rw [find?_setChunkOffset]
  cases hfind : List.find? (fun e => e.1 == x) t with
  | none => rfl
  | some e =>
    have he : e.1 = x := by simpa using List.find?_some hfind
    show (if e.1 = c then (e.1, o, e.2.2) else e) = e
    rw [if_neg (by rw [he]; exact h)]

theorem chunkRec_setChunkOffset_self {t : List (Nat × Int × Int)} {c : Nat}
    (o : Int) (hmem : c ∈ t.map (fun e => e.1)) :
    chunkRec (setChunkOffset t c o) c = (c, o, (chunkRec t c).2.2) := by
  obtain ⟨e, hfind⟩ : ∃ e, List.find? (fun e => e.1 == c) t = some e := by
    rw [List.mem_map] at hmem
    obtain ⟨a, ha, hac⟩ := hmem
    have : (List.find? (fun e => e.1 == c) t).isSome := by
      rw [List.find?_isSome]
      exact ⟨a, ha, by simp [hac]⟩
    exact Option.isSome_iff_exists.mp this
  have he : e.1 = c := by simpa using List.find?_some hfind
  unfold chunkRec
  rw [find?_setChunkOffset, hfind]
  show (if e.1 = c then (e.1, o, e.2.2) else e) = (c, o, e.2.2)
  rw [if_pos he, he]

theorem chunkRec_setChunkOffset_size (t : List (Nat × Int × Int)) (c : Nat)
    (o : Int) (x : Nat) :
    (chunkRec (setChunkOffset t c o) x).2.2 = (chunkRec t x).2.2 := by
  unfold chunkRec
  rw [find?_setChunkOffset]
  cases hfind : List.find? (fun e => e.1 == x) t with
  | none => rfl
  | some e =>
    show (if e.1 = c then (e.1, o, e.2.2) else e).2.2 = e.2.2
    by_cases h : e.1 = c
    · rw [if_pos h]
    · rw [if_neg h]

theorem setChunkOffset_map_fst (t : List (Nat × Int × Int)) (c : Nat) (o : Int) :
    (setChunkOffset t c o).map (fun e => e.1) = t.map (fun e => e.1) := by
  unfold setChunkOffset
  rw [List.map_map]
  congr 1
  funext e
  by_cases h : e.1 = c
  · simp [Function.comp, h]
  · simp [Function.comp, h]

theorem chunkRec_of_mem {t : List (Nat × Int × Int)}
    (hnd : (t.map (fun e => e.1)).Nodup) {e : Nat × Int × Int} (he : e ∈ t) :
    chunkRec t e.1 = e := by
  induction t with
  | nil => cases he
  | cons a t ih =>
    rw [List.map_cons, List.nodup_cons] at hnd
    obtain ⟨hna, hnd⟩ := hnd
    rcases List.mem_cons.mp he with rfl | he'
    · unfold chunkRec
      rw [List.find?_cons_of_pos _ (by simp)]
      rfl
    · have hne : ¬ ((fun (y : Nat × Int × Int) => y.1 == e.1) a = true) := by
        simp only [beq_iff_eq]
        intro hh
        exact hna (hh ▸ List.mem_map_of_mem (fun y => y.1) he')
      unfold chunkRec
      rw [List.find?_cons_of_neg (p := fun (y : Nat × Int × Int) => y.1 == e.1) _ hne]
      exact ih hnd he'

theorem sumSizes_perm {l₁ l₂ : List (Nat × Int × Int)} (p : l₁.Perm l₂) :
    sumSizes l₁ = sumSizes l₂ :=
  (p.map _).sum_eq

/-- The behaviour of the `_defrag` relocation loop on a chunk list that is
sorted by offset, pairwise non-overlapping, in bounds, above the running
offset `n`, with distinct tokens that the lookup table maps to exactly
these records: the loop returns `n + Σ sizes`, keeps the buffer length,
never writes below `n`, keeps every token and every size, leaves records
outside the list untouched, and relocates each listed chunk to some offset
at which its bytes read back exactly as they did before the loop. -/
theorem defragLoop_spec (cs : List (Nat × Int × Int)) :
    ∀ (buf : List Nat) (table : List (Nat × Int × Int)) (n : Int),
    (∀ e ∈ cs, 0 ≤ e.2.1 ∧ 0 ≤ e.2.2 ∧ e.2.1 + e.2.2 ≤ (buf.length : Int)) →
    cs.Pairwise (fun a b => a.2.1 + a.2.2 ≤ b.2.1) →
    (∀ e ∈ cs, n ≤ e.2.1) →
    0 ≤ n →
    (cs.map (fun e => e.1)).Nodup →
    (∀ e ∈ cs, chunkRec table e.1 = e ∧ e.1 ∈ table.map (fun e => e.1)) →
    (defragLoop buf table cs n).2.2 = n + sumSizes cs ∧
    (defragLoop buf table cs n).1.length = buf.length ∧
    (∀ k : Nat, (k : Int) < n → (defragLoop buf table cs n).1[k]? = buf[k]?) ∧
    ((defragLoop buf table cs n).2.1.map (fun e => e.1) =
      table.map (fun e => e.1)) ∧
    (∀ x, x ∉ cs.map (fun e => e.1) →
      chunkRec (defragLoop buf table cs n).2.1 x = chunkRec table x) ∧
    (∀ x, (chunkRec (defragLoop buf table cs n).2.1 x).2.2 =
      (chunkRec table x).2.2) ∧
    (∀ e ∈ cs, ∃ o2,
      chunkRec (defragLoop buf table cs n).2.1 e.1 = (e.1, o2, e.2.2) ∧
      pyGetSlice (defragLoop buf table cs n).1 o2 (o2 + e.2.2) =
        pyGetSlice buf e.2.1 (e.2.1 + e.2.2)) := by
  induction cs with
  | nil =>
    intro buf table n h1 h2 h3 h4 h5 h6
    refine ⟨?_, rfl, fun k _ => rfl, rfl, fun x _ => rfl, fun x => rfl,
      fun e he => absurd he (List.not_mem_nil e)⟩
    show n = n + sumSizes []
    simp [sumSizes]
  | cons hd rest ih =>
    obtain ⟨cid, off, sz⟩ := hd
    intro buf table n h1 h2 h3 h4 h5 h6
    have hb1 : 0 ≤ off := (h1 (cid, off, sz) (List.mem_cons_self _ _)).1
    have hb2 : 0 ≤ sz := (h1 (cid, off, sz) (List.mem_cons_self _ _)).2.1
    have hb3 : off + sz ≤ (buf.length : Int) :=
      (h1 (cid, off, sz) (List.mem_cons_self _ _)).2.2
    have hnoff : n ≤ off := h3 _ (List.mem_cons_self _ _)
    rw [List.pairwise_cons] at h2
    obtain ⟨hchain_hd, hchain⟩ := h2
    have hchain_hd' : ∀ e ∈ rest, off + sz ≤ e.2.1 := fun e he => hchain_hd e he
    rw [List.map_cons, List.nodup_cons] at h5
    obtain ⟨hcid_notin, h5r⟩ := h5
    have h6hd1 : chunkRec table cid = (cid, off, sz) :=
      (h6 (cid, off, sz) (List.mem_cons_self _ _)).1
    have h6hd2 : cid ∈ table.map (fun e => e.1) :=
      (h6 (cid, off, sz) (List.mem_cons_self _ _)).2
    have hsum : sumSizes ((cid, off, sz) :: rest) = sz + sumSizes rest := by
      simp [sumSizes]
    by_cases hoff : off ≠ n
    · -- relocation branch
      have hstep : defragLoop buf table ((cid, off, sz) :: rest) n =
          defragLoop (pySetSlice buf n (n + sz) (pyGetSlice buf off (off + sz)))
            (setChunkOffset table cid n) rest (n + sz) := by
        simp only [defragLoop]
        rw [if_pos hoff]
      have hsrcseg : pyGetSlice buf off (off + sz) = seg buf off.toNat sz.toNat :=
        pyGetSlice_eq_seg hb1 hb2 hb3
      have hsrclen : (pyGetSlice buf off (off + sz)).length = sz.toNat := by
        rw [hsrcseg]
        exact seg_length (by omega)
      have hnsz : n + sz ≤ (buf.length : Int) := by omega
      have hbuf1 : pySetSlice buf n (n + sz) (pyGetSlice buf off (off + sz)) =
          buf.take n.toNat ++ pyGetSlice buf off (off + sz) ++
            buf.drop (n.toNat + sz.toNat) :=
        pySetSlice_inbounds h4 hb2 hnsz (by rw [hsrclen]; omega)
      have hbuf1len :
          (pySetSlice buf n (n + sz) (pyGetSlice buf off (off + sz))).length =
            buf.length := by
        rw [hbuf1]
        exact length_replace (by omega) hsrclen
      have hagree : ∀ k : Nat, k < n.toNat ∨ n.toNat + sz.toNat ≤ k →
          (pySetSlice buf n (n + sz) (pyGetSlice buf off (off + sz)))[k]? =
            buf[k]? := by
        intro k hk
        rw [hbuf1, getElem?_replace (by omega) hsrclen]
        rcases hk with hk | hk
        · rw [if_pos hk]
        · rw [if_neg (by omega), if_neg (by omega)]
      have h1r : ∀ e ∈ rest, 0 ≤ e.2.1 ∧ 0 ≤ e.2.2 ∧ e.2.1 + e.2.2 ≤
          (((pySetSlice buf n (n + sz)
            (pyGetSlice buf off (off + sz))).length : Nat) : Int) := by
        intro e he
        rw [hbuf1len]
        exact h1 e (List.mem_cons_of_mem _ he)
      have h6r : ∀ e ∈ rest, chunkRec (setChunkOffset table cid n) e.1 = e ∧
          e.1 ∈ (setChunkOffset table cid n).map (fun e => e.1) := by
        intro e he
        have hne : e.1 ≠ cid := fun hh =>
          hcid_notin (hh ▸ List.mem_map_of_mem (fun y => y.1) he)
        refine ⟨?_, ?_⟩
        · rw [chunkRec_setChunkOffset_ne hne]
          exact (h6 e (List.mem_cons_of_mem _ he)).1
        · rw [setChunkOffset_map_fst]
          exact (h6 e (List.mem_cons_of_mem _ he)).2
      obtain ⟨IHsum, IHlen, IHagree, IHmap, IHout, IHsize, IHdata⟩ :=
        ih (pySetSlice buf n (n + sz) (pyGetSlice buf off (off + sz)))
          (setChunkOffset table cid n) (n + sz) h1r hchain
          (fun e he => by have := hchain_hd' e he; omega) (by omega) h5r h6r
      rw [hstep]
      refine ⟨?_, ?_, ?_, ?_, ?_, ?_, ?_⟩
      · rw [IHsum, hsum]
        omega
      · rw [IHlen, hbuf1len]
      · intro k hk
        rw [IHagree k (by omega), hagree k (Or.inl (by omega))]
      · rw [IHmap, setChunkOffset_map_fst]
      · intro x hx
        have hx1 : x ≠ cid := fun hh =>
          hx (by rw [List.map_cons, hh]; exact List.mem_cons_self _ _)
        have hx2 : x ∉ rest.map (fun e => e.1) := fun hh =>
          hx (by rw [List.map_cons]; exact List.mem_cons_of_mem _ hh)
        rw [IHout x hx2, chunkRec_setChunkOffset_ne hx1]
      · intro x
        rw [IHsize x, chunkRec_setChunkOffset_size]
      · intro e he
        rcases List.mem_cons.mp he with rfl | he'
        · refine ⟨n, ?_, ?_⟩
          · rw [IHout cid hcid_notin, chunkRec_setChunkOffset_self n h6hd2,
              h6hd1]
          · have hfinlen : (defragLoop
                (pySetSlice buf n (n + sz) (pyGetSlice buf off (off + sz)))
                (setChunkOffset table cid n) rest (n + sz)).1.length =
                buf.length := by
              rw [IHlen, hbuf1len]
            rw [pyGetSlice_eq_seg h4 hb2 (by rw [hfinlen]; exact hnsz)]
            have hseg1 : seg (defragLoop
                (pySetSlice buf n (n + sz) (pyGetSlice buf off (off + sz)))
                (setChunkOffset table cid n) rest (n + sz)).1 n.toNat sz.toNat =
                seg (pySetSlice buf n (n + sz) (pyGetSlice buf off (off + sz)))
                  n.toNat sz.toNat :=
              seg_eq_of_agree (fun k _ hk2 => IHagree k (by omega))
            rw [hseg1, hbuf1, seg_replace_middle (by omega) hsrclen]
        · obtain ⟨o2, hrec, hdata⟩ := IHdata e he'
          refine ⟨o2, hrec, ?_⟩
          rw [hdata]
          have hbe := h1 e (List.mem_cons_of_mem _ he')
          have hlow : n + sz ≤ e.2.1 := by have := hchain_hd' e he'; omega
          rw [pyGetSlice_eq_seg hbe.1 hbe.2.1 (by rw [hbuf1len]; exact hbe.2.2),
            pyGetSlice_eq_seg hbe.1 hbe.2.1 hbe.2.2]
          exact seg_eq_of_agree (fun k hk1 _ => hagree k (Or.inr (by omega)))
    · -- already-in-place branch: off = n
      rw [not_ne_iff] at hoff
      have hstep : defragLoop buf table ((cid, off, sz) :: rest) n =
          defragLoop buf table rest (n + sz) := by
        simp only [defragLoop]
        rw [if_neg (not_ne_iff.mpr hoff)]
      obtain ⟨IHsum, IHlen, IHagree, IHmap, IHout, IHsize, IHdata⟩ :=
        ih buf table (n + sz) (fun e he => h1 e (List.mem_cons_of_mem _ he))
          hchain (fun e he => by have := hchain_hd' e he; omega) (by omega) h5r
          (fun e he => h6 e (List.mem_cons_of_mem _ he))
      rw [hstep]
      refine ⟨?_, ?_, ?_, ?_, ?_, ?_, ?_⟩
      · rw [IHsum, hsum]
        omega
      · exact IHlen
      · intro k hk
        exact IHagree k (by omega)
      · exact IHmap
      · intro x hx
        have hx2 : x ∉ rest.map (fun e => e.1) := fun hh =>
          hx (by rw [List.map_cons]; exact List.mem_cons_of_mem _ hh)
        exact IHout x hx2
      · exact IHsize
      · intro e he
        rcases List.mem_cons.mp he with rfl | he'
        · refine ⟨off, ?_, ?_⟩
          · rw [IHout cid hcid_notin, h6hd1]
          · rw [pyGetSlice_eq_seg hb1 hb2 (by rw [IHlen]; exact hb3),
              pyGetSlice_eq_seg hb1 hb2 hb3]
            exact seg_eq_of_agree (fun k _ hk2 => IHagree k (by omega))
        · exact IHdata e he'

theorem mmRead_full (st : MMState) (cid : Nat) (hlive : cid ∈ st.live) :
    mmRead st cid 0 none = .ok (pyGetSlice st.buf (chunkOffset st cid + 0)
      (chunkOffset st cid + 0 + chunkSize st cid)) := by
  have hres : resolveSize none (chunkSize st cid) = chunkSize st cid := rfl
  have h2 : ¬ ¬ isValid st cid := not_not_intro hlive
  unfold mmRead
  rw [if_neg (not_not_intro (show (0 : Int) ≥ 0 by omega)),
    if_neg h2, hres, if_neg (not_not_intro le_rfl)]

/-- Claim C7: for every allocator state satisfying the structural
invariants, `_defrag` succeeds (the internal assertion reconciles) and
leaves the free-byte counter, the live set, every chunk token and every
chunk size unchanged, while the bytes observed through `read` on every
live chunk are identical before and after compaction (offsets may
change). -/
theorem defrag_preserves (st : MMState) (h : Invariants st) :
    ∃ st', defrag st = .ok st' ∧
      st'.free_bytes = st.free_bytes ∧
      st'.live = st.live ∧
      st'.table.map (fun e => e.1) = st.table.map (fun e => e.1) ∧
      (∀ cid, chunkSize st' cid = chunkSize st cid) ∧
      (∀ cid ∈ st.live, mmRead st' cid 0 none = mmRead st cid 0 none) := by
  unfold Invariants at h
  obtain ⟨hbuflen, hnodup, hlive_sub, hbounds, hdisj, hcounter⟩ := h
  have hperm := sortChunks_perm (liveRecs st)
  have hsub : ∀ e ∈ sortChunks (liveRecs st), e ∈ liveRecs st :=
    fun e he => hperm.mem_iff.mp he
  have hmem_table : ∀ e ∈ liveRecs st, e ∈ st.table :=
    fun e he => (List.mem_filter.mp he).1
  have hlr_nodup : ((liveRecs st).map (fun e => e.1)).Nodup :=
    hnodup.sublist ((List.filter_sublist st.table).map (fun e => e.1))
  have hs_nodup : ((sortChunks (liveRecs st)).map (fun e => e.1)).Nodup :=
    ((hperm.map (fun e => e.1)).nodup_iff).mpr hlr_nodup
  have h1 : ∀ e ∈ sortChunks (liveRecs st),
      0 ≤ e.2.1 ∧ 0 ≤ e.2.2 ∧ e.2.1 + e.2.2 ≤ (st.buf.length : Int) := by
    intro e he
    have hbe := hbounds e (hsub e he)
    rw [hbuflen]
    exact ⟨hbe.1, by omega, hbe.2.2⟩
  have hchain : (sortChunks (liveRecs st)).Pairwise
      (fun a b => a.2.1 + a.2.2 ≤ b.2.1) := by
    have hsorted := sortChunks_sorted (liveRecs st)
    have hdisj' : (sortChunks (liveRecs st)).Pairwise
        (fun a b => a.2.1 + a.2.2 ≤ b.2.1 ∨ b.2.1 + b.2.2 ≤ a.2.1) :=
      (hperm.pairwise_iff (fun hab => hab.symm)).mpr hdisj
    refine List.Pairwise.imp_of_mem ?_ (hsorted.and hdisj')
    intro a b ha hb hr
    obtain ⟨hle, hd⟩ := hr
    rcases hd with hd | hd
    · exact hd
    · have hbpos := (hbounds b (hsub b hb)).2.1
      omega
  have h6 : ∀ e ∈ sortChunks (liveRecs st),
      chunkRec st.table e.1 = e ∧ e.1 ∈ st.table.map (fun e => e.1) := by
    intro e he
    have het : e ∈ st.table := hmem_table e (hsub e he)
    exact ⟨chunkRec_of_mem hnodup het, List.mem_map_of_mem _ het⟩
  obtain ⟨Lsum, Llen, Lagree, Lmap, Lout, Lsize, Ldata⟩ :=
    defragLoop_spec (sortChunks (liveRecs st)) st.buf st.table 0 h1 hchain
      (fun e he => (h1 e he).1) (le_refl 0) hs_nodup h6
  have hsumeq : (defragLoop st.buf st.table (sortChunks (liveRecs st)) 0).2.2 =
      (st.size : Int) - st.free_bytes := by
    rw [Lsum, sumSizes_perm hperm]
    omega
  refine ⟨{ st with
      buf := (defragLoop st.buf st.table (sortChunks (liveRecs st)) 0).1
      table := (defragLoop st.buf st.table (sortChunks (liveRecs st)) 0).2.1
      free_slots :=
        if st.free_bytes < (st.size : Int) then
          [((defragLoop st.buf st.table (sortChunks (liveRecs st)) 0).2.2,
            (st.size : Int) -
              (defragLoop st.buf st.table (sortChunks (liveRecs st)) 0).2.2)]
        else [] }, ?g1, rfl, rfl, ?g4, ?g5, ?g6⟩
  case g1 =>
    simp only [defrag]
    rw [if_pos hsumeq]
  case g4 => exact Lmap
  case g5 =>
    intro cid
    show (chunkRec (defragLoop st.buf st.table (sortChunks (liveRecs st)) 0).2.1
        cid).2.2 = (chunkRec st.table cid).2.2
    exact Lsize cid
  case g6 =>
    intro cid hcid
    refine (mmRead_full ({ st with
        buf := (defragLoop st.buf st.table (sortChunks (liveRecs st)) 0).1
        table := (defragLoop st.buf st.table (sortChunks (liveRecs st)) 0).2.1
        free_slots :=
          if st.free_bytes < (st.size : Int) then
            [((defragLoop st.buf st.table (sortChunks (liveRecs st)) 0).2.2,
              (st.size : Int) -
                (defragLoop st.buf st.table (sortChunks (liveRecs st)) 0).2.2)]
          else [] }) cid hcid).trans ?_
    rw [mmRead_full st cid hcid]
    have hcid_tab : cid ∈ st.table.map (fun e => e.1) := hlive_sub cid hcid
    obtain ⟨a, ha_mem, ha_id⟩ := List.mem_map.mp hcid_tab
    subst ha_id
    have ha_lr : a ∈ liveRecs st := by
      refine List.mem_filter.mpr ⟨ha_mem, ?_⟩
      simp only [decide_eq_true_eq]
      exact hcid
    have ha_sorted : a ∈ sortChunks (liveRecs st) := hperm.mem_iff.mpr ha_lr
    obtain ⟨o2, hrec, hdata⟩ := Ldata a ha_sorted
    have hrec_st : chunkRec st.table a.1 = a := chunkRec_of_mem hnodup ha_mem
    show Except.ok (pyGetSlice
        (defragLoop st.buf st.table (sortChunks (liveRecs st)) 0).1
        ((chunkRec (defragLoop st.buf st.table (sortChunks (liveRecs st)) 0).2.1
            a.1).2.1 + 0)
        ((chunkRec (defragLoop st.buf st.table (sortChunks (liveRecs st)) 0).2.1
            a.1).2.1 + 0 +
          (chunkRec (defragLoop st.buf st.table (sortChunks (liveRecs st)) 0).2.1
            a.1).2.2))
      = Except.ok (pyGetSlice st.buf ((chunkRec st.table a.1).2.1 + 0)
        ((chunkRec st.table a.1).2.1 + 0 + (chunkRec st.table a.1).2.2))
    rw [hrec, hrec_st]
    show Except.ok (pyGetSlice
        (defragLoop st.buf st.table (sortChunks (liveRecs st)) 0).1
        (o2 + 0) (o2 + 0 + a.2.2))
      = Except.ok (pyGetSlice st.buf (a.2.1 + 0) (a.2.1 + 0 + a.2.2))
    rw [Int.add_zero, Int.add_zero]
    exact congrArg Except.ok hdata

/-- Claim C7 witness: a capacity-4 manager with two live one-byte chunks at
offsets 1 and 3 (tokens 0 and 1), two one-byte free slots, and distinct
byte contents, satisfying every structural invariant. -/
theorem defrag_preserves_witness :
    Invariants (MMState.mk [9, 1, 8, 2] 4 2 [(0, 1, 1), (1, 3, 1)] [0, 1]
      [(0, 1), (2, 1)] 2) ∧
    (∃ st', defrag (MMState.mk [9, 1, 8, 2] 4 2 [(0, 1, 1), (1, 3, 1)] [0, 1]
        [(0, 1), (2, 1)] 2) = .ok st' ∧
      st'.free_bytes = (MMState.mk [9, 1, 8, 2] 4 2 [(0, 1, 1), (1, 3, 1)] [0, 1]
        [(0, 1), (2, 1)] 2).free_bytes ∧
      st'.live = (MMState.mk [9, 1, 8, 2] 4 2 [(0, 1, 1), (1, 3, 1)] [0, 1]
        [(0, 1), (2, 1)] 2).live ∧
      st'.table.map (fun e => e.1) =
        (MMState.mk [9, 1, 8, 2] 4 2 [(0, 1, 1), (1, 3, 1)] [0, 1]
          [(0, 1), (2, 1)] 2).table.map (fun e => e.1) ∧
      (∀ cid, chunkSize st' cid =
        chunkSize (MMState.mk [9, 1, 8, 2] 4 2 [(0, 1, 1), (1, 3, 1)] [0, 1]
          [(0, 1), (2, 1)] 2) cid) ∧
      (∀ cid ∈ (MMState.mk [9, 1, 8, 2] 4 2 [(0, 1, 1), (1, 3, 1)] [0, 1]
          [(0, 1), (2, 1)] 2).live,
        mmRead st' cid 0 none =
          mmRead (MMState.mk [9, 1, 8, 2] 4 2 [(0, 1, 1), (1, 3, 1)] [0, 1]
            [(0, 1), (2, 1)] 2) cid 0 none)) :=
  ⟨by decide,
    defrag_preserves (MMState.mk [9, 1, 8, 2] 4 2 [(0, 1, 1), (1, 3, 1)] [0, 1]
      [(0, 1), (2, 1)] 2) (by decide)⟩
